import Mathlib

/-!
Verification of the homing (zeroing) controller of the braille-display
firmware (`src/firmware/main.py`).

The firmware's homing core consists of:
  * `is_at_peak(measurements, min_sample_count)` (main.py lines 418-424),
  * the sliding-window update inside `zero_corner_motors`
    (append + `pop(0)` once above capacity, lines 477-480),
  * the orchestrator `zero_corner_motors` (lines 427-491), and
  * the shift-register drive primitives `set_corner_motor_state`
    (lines 230-255) and `pulse_corner_motor` (lines 258-268).

The embedding below mirrors that Python code.  Hardware interaction
(pulses, sensor reads, console prints) is recorded as a trace of events;
the hall-sensor readings and the wall-clock readings are inputs of the
model (`samples`, `elapsed`), and the unbounded `while True:` loop is
given explicit fuel (Python terminates because real time advances; a
model run that exhausts fuel is reported as `outOfFuel`, never silently
converted into an answer).
-/

namespace BrailleHoming

/-- Embedding of `is_at_peak` (main.py lines 418-424).

```
def is_at_peak(measurements: list[int], min_sample_count: int) -> bool:
    if len(measurements) < min_sample_count:
        return False
    middle_val = measurements[len(measurements) // 2]
    return all(middle_val >= m for m in measurements)
```

Python raises `IndexError` when the subscript is out of range (only
possible for `min_sample_count = 0` with an empty list); the embedding
returns `none` in that case and `some b` when the Python function
returns `b`. -/
def is_at_peak (measurements : List ℕ) (min_sample_count : ℕ) : Option Bool :=
  if measurements.length < min_sample_count then
    some false
  else
    match measurements[measurements.length / 2]? with
    | none => none
    | some middle_val => some (measurements.all (fun m => decide (m ≤ middle_val)))

/-- Embedding of the sliding-window update in `zero_corner_motors`
(main.py lines 477-480):

```
last_n_measurements.append(val)
if len(last_n_measurements) > min_sample_count:
    last_n_measurements.pop(0)
```
-/
def pushWindow (w : List ℕ) (cap : ℕ) (val : ℕ) : List ℕ :=
  let w' := w ++ [val]
  if cap < w'.length then w'.drop 1 else w'

/-- The window obtained by feeding the value sequence `xs` (oldest
first) through `pushWindow` starting from the empty window, exactly as
the orchestrator does with the stream of valid samples. -/
def wstate (cap : ℕ) (xs : List ℕ) : List ℕ :=
  xs.foldl (fun w v => pushWindow w cap v) []

/-- Embedding of `set_corner_motor_state` (main.py lines 230-255): it
validates its arguments (raising `ValueError`, modelled as `.error`),
builds a fresh all-`False` 16-bit image, sets the two drive bits of the
requested corner according to `state`, and hands the image to
`set_shift_registers`.  The returned list is the full 16-bit image that
is shifted out and latched. -/
def set_corner_motor_state (corner_num : ℤ) (state : ℤ) : Except String (List Bool) :=
  if corner_num < 0 ∨ 3 < corner_num then
    .error "Corner number must be 0 <= corner_num <= 3."
  else if state ≠ -1 ∧ state ≠ 0 ∧ state ≠ 1 then
    .error "Invalid state value. Must be -1, 0, or 1."
  else
    let reg : List Bool := List.replicate 16 false
    let reg :=
      if state = 0 then reg
      else if state = 1 then
        ((reg.set (8 + corner_num.toNat * 2 + 0) true).set (8 + corner_num.toNat * 2 + 1) false)
      else
        ((reg.set (8 + corner_num.toNat * 2 + 0) false).set (8 + corner_num.toNat * 2 + 1) true)
    set_shift_registers reg
where
  /-- Embedding of the `set_shift_registers` boundary (main.py lines
  185-213): it validates the length and latches the image. -/
  set_shift_registers (data : List Bool) : Except String (List Bool) :=
    if data.length ≠ 16 then
      .error "Data must contain exactly 16 boolean values"
    else
      .ok data

/-- Observable hardware / console actions of the orchestrator, recorded
in order.  `pulse` is one call of `pulse_corner_motor(corner, dir,
pulse_ms, settle_ms)` (main.py lines 258-268); `setState` is one call of
`set_corner_motor_state`; `read` is one call of
`read_corner_hall_sensor_abs_u16` together with the value it returned;
`insert` records `last_n_measurements.append(val)`; `printPeak` /
`printFail` are the corresponding `print` statements. -/
inductive Ev where
  | setState (corner state : ℤ)
  | pulse (corner dir : ℤ) (pulse_ms settle_ms : ℕ)
  | read (corner : ℤ) (val : ℕ)
  | insert (corner : ℤ) (val : ℕ)
  | printPeak (corner : ℤ)
  | printFail (corner : ℤ)
deriving DecidableEq, Repr

/-- Parameters of `zero_corner_motors` other than the corner list
(main.py lines 427-432), with the source's names and defaults. -/
structure Config where
  timeout_per_motor_ms : ℕ := 2000
  min_valid_value : ℕ := 1000
  min_sample_count : ℕ := 9
deriving DecidableEq, Repr

/-- Result of the per-corner `while True:` loop of `zero_corner_motors`,
together with the events the loop emitted.  `indexError` is the
`IndexError` that `is_at_peak` would raise for `min_sample_count = 0`;
`outOfFuel` means the model's fuel ran out before the loop ended. -/
inductive AttemptRes where
  | homed (evs : List Ev)
  | timedOut (evs : List Ev)
  | indexError (evs : List Ev)
  | outOfFuel
deriving DecidableEq, Repr

/-- Prepend events emitted earlier in the loop to an attempt result. -/
def consEvs (pre : List Ev) : AttemptRes → AttemptRes
  | .homed evs => .homed (pre ++ evs)
  | .timedOut evs => .timedOut (pre ++ evs)
  | .indexError evs => .indexError (pre ++ evs)
  | .outOfFuel => .outOfFuel

/-- Embedding of the per-corner `while True:` loop of
`zero_corner_motors` (main.py lines 457-486), for corner `c`.

`samples k` is the value `read_corner_hall_sensor_abs_u16` returns at
the loop's k-th iteration; `elapsed k` is the value of
`time.ticks_ms() - start` at the k-th timeout check.  `w` is
`last_n_measurements` and `k` counts iterations already performed.

One iteration: timeout check; forward pulse
(`pulse_corner_motor(corner_num, 1)`, defaults `pulse_ms=5`,
`settle_ms=10`); sensor read; `continue` when the value is below
`min_valid_value`; window update; peak check, and on a peak
`min_sample_count // 2` reverse pulses (`pulse_corner_motor(corner_num,
-1)`). -/
def attemptLoop (c : ℤ) (cfg : Config) (samples elapsed : ℕ → ℕ) :
    List ℕ → ℕ → ℕ → AttemptRes
  | _, _, 0 => .outOfFuel
  | w, k, fuel + 1 =>
    if cfg.timeout_per_motor_ms < elapsed k then
      .timedOut [.setState c 0, .printFail c]
    else
      let val := samples k
      let pre : List Ev := [.pulse c 1 5 10, .read c val]
      if val < cfg.min_valid_value then
        consEvs pre (attemptLoop c cfg samples elapsed w (k + 1) fuel)
      else
        let w' := pushWindow w cfg.min_sample_count val
        match is_at_peak w' cfg.min_sample_count with
        | none => .indexError (pre ++ [.insert c val])
        | some true =>
            .homed (pre ++ [.insert c val, .printPeak c] ++
              List.replicate (cfg.min_sample_count / 2) (.pulse c (-1) 5 10))
        | some false =>
            consEvs (pre ++ [.insert c val]) (attemptLoop c cfg samples elapsed w' (k + 1) fuel)

/-- Result of the `for corner_num in corner_numbers:` loop of
`zero_corner_motors` (main.py lines 450-486): the trace of all events,
and `failed_corners`.  `raisedValueError` is the `ValueError` coming out
of the defensive `set_corner_motor_state(corner_num, 0)` for an
out-of-range corner number; it aborts the loop. -/
inductive RunOut where
  | done (trace : List Ev) (failed : List ℤ)
  | raisedValueError (trace : List Ev) (failed : List ℤ)
  | raisedIndexError (trace : List Ev) (failed : List ℤ)
  | outOfFuel
deriving DecidableEq, Repr

/-- Embedding of the `for corner_num in corner_numbers:` loop of
`zero_corner_motors`.  `samples i k` / `elapsed i k` are the sensor and
clock readings during the attempt at position `i` of the original
corner list; `trace` and `failed` accumulate.  Each attempt starts with
the defensive stop `set_corner_motor_state(corner_num, 0)` — which
raises `ValueError` for an out-of-range corner before any event is
emitted for it — and a fresh empty window; a timed-out attempt appends
its corner to `failed_corners`. -/
def processCorners (cfg : Config) (samples elapsed : ℕ → ℕ → ℕ) (fuel : ℕ) :
    List ℤ → ℕ → List Ev → List ℤ → RunOut
  | [], _, trace, failed => .done trace failed
  | c :: rest, i, trace, failed =>
    if c < 0 ∨ 3 < c then
      .raisedValueError trace failed
    else
      match attemptLoop c cfg (samples i) (elapsed i) [] 0 fuel with
      | .outOfFuel => .outOfFuel
      | .indexError evs => .raisedIndexError (trace ++ .setState c 0 :: evs) failed
      | .homed evs =>
          processCorners cfg samples elapsed fuel rest (i + 1)
            (trace ++ .setState c 0 :: evs) failed
      | .timedOut evs =>
          processCorners cfg samples elapsed fuel rest (i + 1)
            (trace ++ .setState c 0 :: evs) (failed ++ [c])

/-- Outcome of one call of `zero_corner_motors`: a normal return, the
final `RuntimeError(f"Timeout while zeroing corner motors: ...")`
(main.py lines 488-489), or an exception escaping mid-loop. -/
inductive ZeroResult where
  | normalReturn (trace : List Ev)
  | runtimeError (failedCorners : List ℤ) (trace : List Ev)
  | valueError (trace : List Ev)
  | indexError (trace : List Ev)
  | outOfFuel
deriving DecidableEq, Repr

/-- Embedding of `zero_corner_motors` (main.py lines 427-491): run the
corner loop, then raise `RuntimeError(failed_corners)` iff
`failed_corners` is non-empty, else return normally. -/
def zero_corner_motors (corner_numbers : List ℤ) (cfg : Config)
    (samples elapsed : ℕ → ℕ → ℕ) (fuel : ℕ) : ZeroResult :=
  match processCorners cfg samples elapsed fuel corner_numbers 0 [] [] with
  | .done tr fl => if fl = [] then .normalReturn tr else .runtimeError fl tr
  | .raisedValueError tr _ => .valueError tr
  | .raisedIndexError tr _ => .indexError tr
  | .outOfFuel => .outOfFuel

/-- The events an attempt emitted (an out-of-fuel attempt has no
meaningful trace). -/
def AttemptRes.evs : AttemptRes → List Ev
  | .homed evs => evs
  | .timedOut evs => evs
  | .indexError evs => evs
  | .outOfFuel => []

/-- Is this event a pulse of corner `c` in direction `d`? -/
def Ev.isPulseDir (c d : ℤ) : Ev → Bool
  | .pulse c' d' _ _ => c' == c && d' == d
  | _ => false

/-- Number of pulses of corner `c` in direction `d` in a trace. -/
def countPulses (c d : ℤ) (tr : List Ev) : ℕ :=
  (tr.filter (Ev.isPulseDir c d)).length

/-- Number of `printPeak` events in a trace (one per homed corner). -/
def countPeaks (tr : List Ev) : ℕ :=
  (tr.filter (fun e => match e with | .printPeak _ => true | _ => false)).length

/-- Did the attempt end through the peak branch? -/
def AttemptRes.isHomed : AttemptRes → Bool
  | .homed _ => true
  | _ => false

/-- Did the attempt end through the timeout branch? -/
def AttemptRes.isTimedOut : AttemptRes → Bool
  | .timedOut _ => true
  | _ => false

/-- The failed-corner list reported by a `zero_corner_motors` outcome. -/
def ZeroResult.failedOf : ZeroResult → List ℤ
  | .runtimeError fl _ => fl
  | _ => []

/-- The trace of a `zero_corner_motors` outcome. -/
def ZeroResult.traceOf : ZeroResult → List Ev
  | .normalReturn tr => tr
  | .runtimeError _ tr => tr
  | .valueError tr => tr
  | .indexError tr => tr
  | .outOfFuel => []

/-! Concrete scenarios used by individual claims. -/

/-- The synthetic triangular waveform of spec §8: strictly increasing
over steps 1..20 and strictly decreasing from step 21 on.  `k` is the
0-based loop iteration, so iteration `k` is step `k + 1`. -/
def triSample (k : ℕ) : ℕ := if k + 1 ≤ 20 then k + 1 else 39 - k

/-- `zero_corner_motors` parameters for the triangular scenario:
`min_sample_count = 9`, every sample valid. -/
def triConfig : Config :=
  { timeout_per_motor_ms := 2000, min_valid_value := 0, min_sample_count := 9 }

/-- One homing attempt of corner 0 against the triangular waveform with
a slow clock (1 ms per iteration, far from the 2000 ms budget). -/
def triRun : AttemptRes := attemptLoop 0 triConfig triSample (fun k => k) [] 0 40

/-- Sensor model for the two-corner continue-on-failure scenario:
corner position 0 only ever reads 0 (always below the default
`min_valid_value = 1000`), corner position 1 sees a valid triangular
waveform. -/
def twoCornerSamples (i k : ℕ) : ℕ := if i = 0 then 0 else 10000 + triSample k

/-- Clock model for the two-corner scenario: corner position 0's clock
runs 1000 ms per iteration (so its attempt exceeds the 2000 ms budget at
the third check), corner position 1's clock runs 1 ms per iteration. -/
def twoCornerElapsed (i k : ℕ) : ℕ := if i = 0 then 1000 * k else k

/-- The two-corner continue-on-failure run: corners `[0, 1]`, default
parameters. -/
def twoCornerRun : ZeroResult :=
  zero_corner_motors [0, 1] {} twoCornerSamples twoCornerElapsed 50

/-- A sensor model whose every reading is 0: always below the default
`min_valid_value = 1000`. -/
def invalidSamples (_i _k : ℕ) : ℕ := 0

/-- A clock model that is already past the default 2000 ms budget at the
very first check of every attempt. -/
def fastElapsed (_i _k : ℕ) : ℕ := 2001

/-- A run on the duplicated corner list `[0, 0]` where every attempt
times out immediately. -/
def dupRun : ZeroResult := zero_corner_motors [0, 0] {} invalidSamples fastElapsed 5

/-- Parameters with window capacity 1 and every sample valid: the very
first valid sample fills the window and is its own center, so the first
iteration homes. -/
def flatConfig : Config :=
  { timeout_per_motor_ms := 2000, min_valid_value := 0, min_sample_count := 1 }

/-- A flat sensor model: every reading is 7. -/
def flatSamples (_i _k : ℕ) : ℕ := 7

/-- A clock model advancing 1 ms per iteration. -/
def linElapsed (_i : ℕ) (k : ℕ) : ℕ := k

/-- Parameters with window capacity 3, every sample valid and a 10 ms
budget. -/
def smallPeakConfig : Config :=
  { timeout_per_motor_ms := 10, min_valid_value := 0, min_sample_count := 3 }

/-- A sensor model reading 1, 2, 1 and then 0 forever: a single-peak
waveform for a capacity-3 window. -/
def smallPeakSamples (_i : ℕ) (k : ℕ) : ℕ := [1, 2, 1].getD k 0

/-- A clock model that never advances. -/
def zeroElapsed (_i _k : ℕ) : ℕ := 0

/-! ## Window lemmas -/

/-- A capacity-0 window stays empty. -/
theorem wstate_cap_zero (xs : List ℕ) : wstate 0 xs = [] := by
  induction xs with
  | nil => rfl
  | cons x xs ih =>
    have h : pushWindow [] 0 x = [] := rfl
    simpa [wstate, List.foldl_cons, h] using ih

/-- Feeding a value sequence through the orchestrator's window update
keeps exactly the most recent `cap` values, oldest first. -/
theorem wstate_eq (cap : ℕ) (xs : List ℕ) :
    wstate cap xs = xs.drop (xs.length - cap) := by
  rcases Nat.eq_zero_or_pos cap with rfl | hcpos
  · rw [wstate_cap_zero]
    simp
  · induction xs using List.reverseRecOn with
    | nil => simp [wstate]
    | append_singleton xs v ih =>
      have hstep : wstate cap (xs ++ [v]) = pushWindow (wstate cap xs) cap v := by
        simp [wstate, List.foldl_append]
      have hlen : (xs ++ [v]).length = xs.length + 1 := by simp
      rw [hstep, ih, pushWindow, hlen]
      rcases Nat.lt_or_ge xs.length cap with hlt | hge
      · have h0 : xs.length - cap = 0 := by omega
        have h1 : xs.length + 1 - cap = 0 := by omega
        rw [h0, h1]
        simp only [List.drop_zero]
        have hc : ¬ cap < (xs ++ [v]).length := by
          rw [hlen]
          omega
        rw [if_neg hc]
      · have hdlen : (xs.drop (xs.length - cap)).length = xs.length - (xs.length - cap) :=
          List.length_drop _ _
        have hc : cap < (xs.drop (xs.length - cap) ++ [v]).length := by
          rw [List.length_append, hdlen]
          simp
          omega
        rw [if_pos hc]
        have hR : (xs ++ [v]).drop (xs.length + 1 - cap) =
            xs.drop (xs.length + 1 - cap) ++ [v] :=
          List.drop_append_of_le_length (by omega)
        have hL : (xs.drop (xs.length - cap) ++ [v]).drop 1 =
            (xs.drop (xs.length - cap)).drop 1 ++ [v] :=
          List.drop_append_of_le_length (by omega)
        rw [hL, hR, List.drop_drop]
        have hidx : xs.length - cap + 1 = xs.length + 1 - cap := by omega
        rw [hidx]

/-- The window never outgrows its capacity. -/
theorem wstate_length_le (cap : ℕ) (xs : List ℕ) : (wstate cap xs).length ≤ cap := by
  rw [wstate_eq]
  simp
  omega

/-- Claim C1, counterexample: `is_at_peak` does not require the list to
hold exactly `min_sample_count` samples.  At `measurements = [0, 5]` and
`min_sample_count = 1` the code returns `True` (the center it tests is
`measurements[len(measurements) // 2] = measurements[1] = 5`), while the
claimed characterization — exactly 1 sample, and the sample at index
`1 // 2 = 0` maximal — is false. -/
theorem is_at_peak_exact_capacity_cex :
    is_at_peak [0, 5] 1 = some true ∧
      ¬((([0, 5] : List ℕ).length = 1) ∧
        ∀ x ∈ ([0, 5] : List ℕ), x ≤ ([0, 5] : List ℕ).getD (1 / 2) 0) := by
  decide

/-- Claim C1 (amended): for `min_sample_count ≥ 1`, `is_at_peak`
returns true iff the list holds at least `min_sample_count` samples and
the sample at index `len(measurements) // 2` is greater than or equal
to every sample in the list; in particular it returns false whenever
fewer than `min_sample_count` samples are present. -/
theorem is_at_peak_characterization (m : List ℕ) (C : ℕ) (hC : 1 ≤ C) :
    (is_at_peak m C = some true ↔
      C ≤ m.length ∧ ∀ x ∈ m, x ≤ m.getD (m.length / 2) 0) ∧
    (m.length < C → is_at_peak m C = some false) := by
  rcases Nat.lt_or_ge m.length C with hlt | hge
  · refine ⟨?_, fun _ => ?_⟩
    · rw [is_at_peak, if_pos hlt]
      simp
      omega
    · rw [is_at_peak, if_pos hlt]
  · have hm : 0 < m.length := by omega
    have hidx : m.length / 2 < m.length := Nat.div_lt_self hm (by omega)
    have hsome : m[m.length / 2]? = some m[m.length / 2] := List.getElem?_eq_getElem hidx
    have hgetD : m.getD (m.length / 2) 0 = m[m.length / 2] := List.getD_eq_getElem m 0 hidx
    refine ⟨?_, fun h => by omega⟩
    rw [is_at_peak, if_neg (by omega), hsome]
    simp only [Option.some.injEq, List.all_eq_true, decide_eq_true_eq, hgetD]
    constructor
    · intro h
      exact ⟨hge, h⟩
    · rintro ⟨-, h⟩
      exact h

/-- Claim C1, witness: the amended characterization applied at
`measurements = [3, 9, 4]`, `min_sample_count = 3`. -/
theorem is_at_peak_characterization_witness : is_at_peak [3, 9, 4] 3 = some true :=
  (is_at_peak_characterization [3, 9, 4] 3 (by decide)).1.mpr (by decide)

/-- Claim C6: the window length never exceeds the capacity `C ≥ 1` for
any insertion sequence (the orchestrator builds every window by folding
the lines-477-480 update `pushWindow` from the empty list), and an
insertion at capacity evicts exactly the oldest entry (the head), while
below capacity it merely appends — strict FIFO order. -/
theorem window_capacity_fifo (cap : ℕ) (hcap : 1 ≤ cap) :
    (∀ xs : List ℕ, (wstate cap xs).length ≤ cap) ∧
    (∀ (w : List ℕ) (v : ℕ), w.length = cap → pushWindow w cap v = w.tail ++ [v]) ∧
    (∀ (w : List ℕ) (v : ℕ), w.length < cap → pushWindow w cap v = w ++ [v]) := by
  refine ⟨fun xs => wstate_length_le cap xs, fun w v hw => ?_, fun w v hw => ?_⟩
  · rw [pushWindow]
    have hc : cap < (w ++ [v]).length := by
      simp [hw]
    rw [if_pos hc]
    cases w with
    | nil => simp at hw; omega
    | cons a w' => simp
  · rw [pushWindow]
    have hc : ¬ cap < (w ++ [v]).length := by
      simp
      omega
    rw [if_neg hc]

/-- Claim C6, witness: capacity 2 — a full window `[4, 6]` receiving 9
evicts the oldest entry 4. -/
theorem window_capacity_fifo_witness : pushWindow [4, 6] 2 9 = [6, 9] :=
  (window_capacity_fifo 2 (by decide)).2.1 [4, 6] 9 rfl

/-- Claim C8, counterexample: for window capacity `C = 1` the strictly
increasing stream consisting of the single sample 5 does report a peak
(the single entry is its own window center), so the claim is false for
arbitrary capacities. -/
theorem monotone_stream_peak_cex :
    ([5] : List ℕ).Pairwise (· < ·) ∧ is_at_peak (wstate 1 [5]) 1 = some true := by
  constructor
  · simp
  · rfl

/-- Claim C8 (amended): for every window capacity `C ≥ 3` and every
strictly increasing sample stream fed into the window, `is_at_peak`
never returns true at any point of the stream: the window is then a
strictly increasing list, whose center is strictly below its last
entry. -/
theorem strict_mono_stream_no_peak (cap : ℕ) (xs : List ℕ) (hcap : 3 ≤ cap)
    (hmono : xs.Pairwise (· < ·)) (n : ℕ) :
    is_at_peak (wstate cap (xs.take n)) cap ≠ some true := by
  intro hpeak
  have hpmono : (xs.take n).Pairwise (· < ·) := hmono.sublist (List.take_sublist n xs)
  have hwmono : (wstate cap (xs.take n)).Pairwise (· < ·) := by
    rw [wstate_eq]
    exact hpmono.sublist (List.drop_sublist _ _)
  set w := wstate cap (xs.take n) with hwdef
  rcases Nat.lt_or_ge w.length cap with hlt | hge
  · rw [is_at_peak, if_pos hlt] at hpeak
    simp at hpeak
  · have h3 : 3 ≤ w.length := le_trans hcap hge
    have hidx : w.length / 2 < w.length := Nat.div_lt_self (by omega) (by omega)
    have hlast : w.length - 1 < w.length := by omega
    have hsome : w[w.length / 2]? = some w[w.length / 2] := List.getElem?_eq_getElem hidx
    rw [is_at_peak, if_neg (by omega), hsome] at hpeak
    simp only [Option.some.injEq, List.all_eq_true, decide_eq_true_eq] at hpeak
    have hmem : w[w.length - 1] ∈ w := List.getElem_mem hlast
    have hle := hpeak _ hmem
    have hlt2 : w[w.length / 2] < w[w.length - 1] := by
      have hij : (⟨w.length / 2, hidx⟩ : Fin w.length) < ⟨w.length - 1, hlast⟩ := by
        simp [Fin.lt_def]
        omega
      have := List.pairwise_iff_get.mp hwmono ⟨w.length / 2, hidx⟩ ⟨w.length - 1, hlast⟩ hij
      simpa using this
    omega

/-- Claim C8, witness: the amended theorem applied to the strictly
increasing stream `[1, 2, 3]` with capacity 3. -/
theorem strict_mono_stream_no_peak_witness :
    is_at_peak (wstate 3 (List.take 3 [1, 2, 3])) 3 ≠ some true :=
  strict_mono_stream_no_peak 3 [1, 2, 3] (by decide) (by decide) 3

/-- Claim C9: for every valid corner and state, `set_corner_motor_state`
latches a complete 16-bit image in which every bit other than the two
drive bits `8 + 2*corner` and `8 + 2*corner + 1` of the given corner is
`False` — so commanding any one corner (a stop included) also
deactivates the drive lines of all other corners and all eight
stepper-enable bits (indices 0..7), rather than leaving them
unchanged. -/
theorem set_corner_motor_state_frame (c s : ℤ) (hc0 : 0 ≤ c) (hc3 : c ≤ 3)
    (hs : s = -1 ∨ s = 0 ∨ s = 1) :
    ∃ reg : List Bool, set_corner_motor_state c s = .ok reg ∧ reg.length = 16 ∧
      ∀ i : ℕ, i < 16 → i ≠ 8 + c.toNat * 2 → i ≠ 8 + c.toNat * 2 + 1 →
        reg.getD i true = false := by
  interval_cases c <;> rcases hs with rfl | rfl | rfl <;>
    exact ⟨_, rfl, by decide, by decide⟩

/-- Claim C9, witness: corner 2 driven forward — the latched image has
`True` only at drive bit 12; bit 9 (a drive bit of corner 0) reads
`False`. -/
theorem set_corner_motor_state_frame_witness :
    (((List.replicate 16 false).set 12 true).set 13 false).getD 9 true = false := by
  obtain ⟨reg, h1, -, h3⟩ :=
    set_corner_motor_state_frame 2 1 (by decide) (by decide) (Or.inr (Or.inr rfl))
  have h2 : set_corner_motor_state 2 1 =
      Except.ok (((List.replicate 16 false).set 12 true).set 13 false) := rfl
  rw [h1] at h2
  injection h2 with h2
  rw [← h2]
  exact h3 9 (by decide) (by decide) (by decide)

/-! ## Attempt-loop lemmas -/

/-- Inverting `consEvs` on a homed result. -/
theorem consEvs_eq_homed {pre : List Ev} {r : AttemptRes} {evs : List Ev}
    (h : consEvs pre r = .homed evs) : ∃ evs', r = .homed evs' ∧ evs = pre ++ evs' := by
  cases r with
  | homed e =>
    simp only [consEvs, AttemptRes.homed.injEq] at h
    exact ⟨e, rfl, h.symm⟩
  | timedOut e => simp [consEvs] at h
  | indexError e => simp [consEvs] at h
  | outOfFuel => simp [consEvs] at h

/-- Inverting `consEvs` on a timed-out result. -/
theorem consEvs_eq_timedOut {pre : List Ev} {r : AttemptRes} {evs : List Ev}
    (h : consEvs pre r = .timedOut evs) : ∃ evs', r = .timedOut evs' ∧ evs = pre ++ evs' := by
  cases r with
  | timedOut e =>
    simp only [consEvs, AttemptRes.timedOut.injEq] at h
    exact ⟨e, rfl, h.symm⟩
  | homed e => simp [consEvs] at h
  | indexError e => simp [consEvs] at h
  | outOfFuel => simp [consEvs] at h

/-- A forward pulse is not a reverse pulse. -/
theorem isPulseDir_fwd (c : ℤ) : Ev.isPulseDir c (-1) (Ev.pulse c 1 5 10) = false := by
  simp only [Ev.isPulseDir, Bool.and_eq_false_imp]
  intro _
  rfl

/-- A reverse pulse of the same corner matches `isPulseDir c (-1)`. -/
theorem isPulseDir_rev (c : ℤ) : Ev.isPulseDir c (-1) (Ev.pulse c (-1) 5 10) = true := by
  simp [Ev.isPulseDir]

/-- In every homed attempt, the reverse pulses in the emitted events are
exactly `min_sample_count / 2` copies of
`pulse_corner_motor(corner, -1)` with the forward pulse's shape. -/
theorem attemptLoop_homed_filter_rev (c : ℤ) (cfg : Config) (samples elapsed : ℕ → ℕ) :
    ∀ (fuel : ℕ) (w : List ℕ) (k : ℕ) (evs : List Ev),
    attemptLoop c cfg samples elapsed w k fuel = .homed evs →
    evs.filter (Ev.isPulseDir c (-1)) =
      List.replicate (cfg.min_sample_count / 2) (Ev.pulse c (-1) 5 10) := by
  intro fuel
  induction fuel with
  | zero =>
    intro w k evs h
    simp [attemptLoop] at h
  | succ fuel ih =>
    intro w k evs h
    simp only [attemptLoop] at h
    split at h
    · simp at h
    · split at h
      · obtain ⟨evs', hrec, rfl⟩ := consEvs_eq_homed h
        rw [List.filter_append, ih _ _ _ hrec]
        have hpre : List.filter (Ev.isPulseDir c (-1))
            [Ev.pulse c 1 5 10, Ev.read c (samples k)] = [] := by
          simp [List.filter, isPulseDir_fwd, Ev.isPulseDir]
        rw [hpre, List.nil_append]
      · split at h
        · simp at h
        · simp only [AttemptRes.homed.injEq] at h
          subst h
          rw [List.filter_append, List.filter_append]
          have hpre : List.filter (Ev.isPulseDir c (-1))
              [Ev.pulse c 1 5 10, Ev.read c (samples k)] = [] := by
            simp [List.filter, isPulseDir_fwd, Ev.isPulseDir]
          have hmid : List.filter (Ev.isPulseDir c (-1))
              [Ev.insert c (samples k), Ev.printPeak c] = [] := by
            simp [List.filter, Ev.isPulseDir]
          have hrep : List.filter (Ev.isPulseDir c (-1))
              (List.replicate (cfg.min_sample_count / 2) (Ev.pulse c (-1) 5 10)) =
              List.replicate (cfg.min_sample_count / 2) (Ev.pulse c (-1) 5 10) := by
            refine List.filter_eq_self.mpr ?_
            intro a ha
            rw [List.eq_of_mem_replicate ha]
            exact isPulseDir_rev c
          rw [hpre, hmid, hrep, List.nil_append, List.nil_append]
        · obtain ⟨evs', hrec, rfl⟩ := consEvs_eq_homed h
          rw [List.filter_append, ih _ _ _ hrec]
          have hpre : List.filter (Ev.isPulseDir c (-1))
              ([Ev.pulse c 1 5 10, Ev.read c (samples k)] ++ [Ev.insert c (samples k)]) = [] := by
            simp [List.filter, isPulseDir_fwd, Ev.isPulseDir]
          rw [hpre, List.nil_append]

/-- Claim C2: whenever the window reports a peak for a (valid) corner,
the orchestrator issues exactly `min_sample_count // 2` reverse pulses —
each the same `pulse_corner_motor` operation as the forward pulse, with
direction -1 and the same 5 ms pulse / 10 ms settle shape —, does not
add the corner to the failure list, and proceeds directly to the next
corner. -/
theorem peak_backoff_and_continue (c : ℤ) (cfg : Config)
    (samples elapsed : ℕ → ℕ → ℕ) (fuel : ℕ) (rest : List ℤ) (i : ℕ)
    (tr : List Ev) (fl : List ℤ) (evs : List Ev)
    (hc0 : 0 ≤ c) (hc3 : c ≤ 3)
    (h : attemptLoop c cfg (samples i) (elapsed i) [] 0 fuel = .homed evs) :
    evs.filter (Ev.isPulseDir c (-1)) =
      List.replicate (cfg.min_sample_count / 2) (Ev.pulse c (-1) 5 10) ∧
    processCorners cfg samples elapsed fuel (c :: rest) i tr fl =
      processCorners cfg samples elapsed fuel rest (i + 1) (tr ++ .setState c 0 :: evs) fl := by
  refine ⟨attemptLoop_homed_filter_rev c cfg (samples i) (elapsed i) fuel [] 0 evs h, ?_⟩
  have hvalid : ¬(c < 0 ∨ 3 < c) := by omega
  simp only [processCorners, if_neg hvalid, h]

/-- Claim C2, witness: corner 0 with capacity 3 homes on the waveform
1, 2, 1; the events contain exactly `3 // 2 = 1` reverse pulse and the
corner loop continues with an unchanged failure list. -/
theorem peak_backoff_and_continue_witness :
    List.filter (Ev.isPulseDir 0 (-1))
      [Ev.pulse 0 1 5 10, Ev.read 0 1, Ev.insert 0 1,
       Ev.pulse 0 1 5 10, Ev.read 0 2, Ev.insert 0 2,
       Ev.pulse 0 1 5 10, Ev.read 0 1, Ev.insert 0 1,
       Ev.printPeak 0, Ev.pulse 0 (-1) 5 10] =
      List.replicate (smallPeakConfig.min_sample_count / 2) (Ev.pulse 0 (-1) 5 10) ∧
    processCorners smallPeakConfig smallPeakSamples zeroElapsed 5 [0] 0 [] [] =
      processCorners smallPeakConfig smallPeakSamples zeroElapsed 5 [] 1
        ([] ++ Ev.setState 0 0 ::
          [Ev.pulse 0 1 5 10, Ev.read 0 1, Ev.insert 0 1,
           Ev.pulse 0 1 5 10, Ev.read 0 2, Ev.insert 0 2,
           Ev.pulse 0 1 5 10, Ev.read 0 1, Ev.insert 0 1,
           Ev.printPeak 0, Ev.pulse 0 (-1) 5 10]) [] :=
  peak_backoff_and_continue 0 smallPeakConfig smallPeakSamples zeroElapsed 5 [] 0 [] []
    [Ev.pulse 0 1 5 10, Ev.read 0 1, Ev.insert 0 1,
     Ev.pulse 0 1 5 10, Ev.read 0 2, Ev.insert 0 2,
     Ev.pulse 0 1 5 10, Ev.read 0 1, Ev.insert 0 1,
     Ev.printPeak 0, Ev.pulse 0 (-1) 5 10]
    (by decide) (by decide) rfl

/-- Claim C3: against the triangular waveform (strictly increasing for
steps 1..20, strictly decreasing afterwards) with `min_sample_count =
9`, the window first reports a peak at step 24 = 20 + 9 // 2 (it is
`some false` after each of the first 23 samples and `some true` after
the 24th), and the orchestrator's attempt homes after 24 forward pulses
followed by exactly 4 reverse pulses, leaving the actuator at net
position 24 - 4 = 20 forward steps — the position of step 20. -/
theorem triangular_first_peak :
    ((List.range 24).map fun n =>
        is_at_peak (wstate 9 ((List.range n).map triSample)) 9) =
      List.replicate 24 (some false) ∧
    is_at_peak (wstate 9 ((List.range 24).map triSample)) 9 = some true ∧
    triRun.isHomed = true ∧
    countPulses 0 1 triRun.evs = 24 ∧
    countPulses 0 (-1) triRun.evs = 4 ∧
    countPulses 0 1 triRun.evs - countPulses 0 (-1) triRun.evs = 20 := by
  refine ⟨by decide, by decide, by decide, by decide, by decide, by decide⟩

/-! ## Counting and membership lemmas for the attempt loop -/

/-- Peak prints distribute over concatenation. -/
theorem countPeaks_append (a b : List Ev) :
    countPeaks (a ++ b) = countPeaks a + countPeaks b := by
  simp [countPeaks, List.filter_append]

/-- Prepending events does not change the attempt's terminal status. -/
theorem consEvs_isTimedOut (pre : List Ev) (r : AttemptRes) :
    (consEvs pre r).isTimedOut = r.isTimedOut := by
  cases r <;> rfl

/-- Membership in a `consEvs` trace splits into the prefix and the
recursive trace. -/
theorem mem_consEvs_evs {x : Ev} {pre : List Ev} {r : AttemptRes}
    (h : x ∈ (consEvs pre r).evs) : x ∈ pre ∨ x ∈ r.evs := by
  cases r <;> simp [consEvs, AttemptRes.evs] at h ⊢ <;> tauto

/-- A timed-out result is `timedOut` of its own events. -/
theorem isTimedOut_eq {r : AttemptRes} (h : r.isTimedOut = true) :
    r = .timedOut r.evs := by
  cases r <;> simp [AttemptRes.isTimedOut, AttemptRes.evs] at h ⊢

/-- A homed attempt prints exactly one peak message. -/
theorem attemptLoop_homed_countPeaks (c : ℤ) (cfg : Config) (samples elapsed : ℕ → ℕ) :
    ∀ (fuel : ℕ) (w : List ℕ) (k : ℕ) (evs : List Ev),
    attemptLoop c cfg samples elapsed w k fuel = .homed evs → countPeaks evs = 1 := by
  intro fuel
  induction fuel with
  | zero =>
    intro w k evs h
    simp [attemptLoop] at h
  | succ fuel ih =>
    intro w k evs h
    simp only [attemptLoop] at h
    split at h
    · simp at h
    · split at h
      · obtain ⟨evs', hrec, rfl⟩ := consEvs_eq_homed h
        rw [countPeaks_append, ih _ _ _ hrec]
        rfl
      · split at h
        · simp at h
        · simp only [AttemptRes.homed.injEq] at h
          subst h
          rw [countPeaks_append, countPeaks_append]
          have hrep : countPeaks
              (List.replicate (cfg.min_sample_count / 2) (Ev.pulse c (-1) 5 10)) = 0 := by
            rw [countPeaks, List.filter_eq_nil_iff.mpr, List.length_nil]
            intro a ha
            rw [List.eq_of_mem_replicate ha]
            simp
          rw [hrep]
          rfl
        · obtain ⟨evs', hrec, rfl⟩ := consEvs_eq_homed h
          rw [countPeaks_append, ih _ _ _ hrec]
          rfl

/-- A timed-out attempt prints no peak message. -/
theorem attemptLoop_timedOut_countPeaks (c : ℤ) (cfg : Config) (samples elapsed : ℕ → ℕ) :
    ∀ (fuel : ℕ) (w : List ℕ) (k : ℕ) (evs : List Ev),
    attemptLoop c cfg samples elapsed w k fuel = .timedOut evs → countPeaks evs = 0 := by
  intro fuel
  induction fuel with
  | zero =>
    intro w k evs h
    simp [attemptLoop] at h
  | succ fuel ih =>
    intro w k evs h
    simp only [attemptLoop] at h
    split at h
    · simp only [AttemptRes.timedOut.injEq] at h
      subst h
      rfl
    · split at h
      · obtain ⟨evs', hrec, rfl⟩ := consEvs_eq_timedOut h
        rw [countPeaks_append, ih _ _ _ hrec]
        rfl
      · split at h
        · simp at h
        · simp at h
        · obtain ⟨evs', hrec, rfl⟩ := consEvs_eq_timedOut h
          rw [countPeaks_append, ih _ _ _ hrec]
          rfl

/-- Every `insert` event an attempt emits carries a value at or above
`min_valid_value`: below-threshold samples are never appended to the
window. -/
theorem attemptLoop_insert_ge_min (c : ℤ) (cfg : Config) (samples elapsed : ℕ → ℕ) :
    ∀ (fuel : ℕ) (w : List ℕ) (k : ℕ) (v : ℕ),
    Ev.insert c v ∈ (attemptLoop c cfg samples elapsed w k fuel).evs →
    cfg.min_valid_value ≤ v := by
  intro fuel
  induction fuel with
  | zero =>
    intro w k v h
    simp [attemptLoop, AttemptRes.evs] at h
  | succ fuel ih =>
    intro w k v h
    simp only [attemptLoop] at h
    split at h
    · simp [AttemptRes.evs] at h
    · rename_i hvalid0
      split at h
      · rcases mem_consEvs_evs h with hp | hr
        · simp at hp
        · exact ih _ _ _ hr
      · rename_i hval
        split at h
        · simp [AttemptRes.evs] at h
          omega
        · simp [AttemptRes.evs, List.mem_replicate] at h
          omega
        · rcases mem_consEvs_evs h with hp | hr
          · simp at hp
            omega
          · exact ih _ _ _ hr

/-- If every reading stays below `min_valid_value` and the clock passes
the budget within the available fuel, the attempt ends in the timeout
branch and its events contain no window insertion at all. -/
theorem attemptLoop_all_invalid (c : ℤ) (cfg : Config) (samples elapsed : ℕ → ℕ)
    (hall : ∀ k, samples k < cfg.min_valid_value) :
    ∀ (fuel : ℕ) (w : List ℕ) (k d : ℕ), d < fuel →
    cfg.timeout_per_motor_ms < elapsed (k + d) →
    (attemptLoop c cfg samples elapsed w k fuel).isTimedOut = true ∧
    ∀ v, Ev.insert c v ∉ (attemptLoop c cfg samples elapsed w k fuel).evs := by
  intro fuel
  induction fuel with
  | zero =>
    intro w k d hd ht
    omega
  | succ fuel ih =>
    intro w k d hd ht
    simp only [attemptLoop]
    by_cases ht0 : cfg.timeout_per_motor_ms < elapsed k
    · rw [if_pos ht0]
      refine ⟨rfl, fun v => ?_⟩
      simp [AttemptRes.evs]
    · have hd0 : d ≠ 0 := by
        rintro rfl
        rw [Nat.add_zero] at ht
        exact ht0 ht
      have ht' : cfg.timeout_per_motor_ms < elapsed (k + 1 + (d - 1)) := by
        have harg : k + 1 + (d - 1) = k + d := by omega
        rw [harg]
        exact ht
      obtain ⟨h1, h2⟩ := ih w (k + 1) (d - 1) (by omega) ht'
      rw [if_neg ht0, if_pos (hall k)]
      refine ⟨?_, fun v hmem => ?_⟩
      · rw [consEvs_isTimedOut]
        exact h1
      · rcases mem_consEvs_evs hmem with hp | hr
        · simp at hp
        · exact h2 v hr

/-! ## Corner-loop lemmas -/

/-- A valid corner whose attempt times out is appended to
`failed_corners` and processing continues with the next corners. -/
theorem processCorners_timedOut_step (c : ℤ) (cfg : Config)
    (samples elapsed : ℕ → ℕ → ℕ) (fuel : ℕ) (rest : List ℤ) (i : ℕ)
    (tr : List Ev) (fl : List ℤ) (evs : List Ev)
    (hc0 : 0 ≤ c) (hc3 : c ≤ 3)
    (h : attemptLoop c cfg (samples i) (elapsed i) [] 0 fuel = .timedOut evs) :
    processCorners cfg samples elapsed fuel (c :: rest) i tr fl =
      processCorners cfg samples elapsed fuel rest (i + 1)
        (tr ++ .setState c 0 :: evs) (fl ++ [c]) := by
  have hvalid : ¬(c < 0 ∨ 3 < c) := by omega
  simp only [processCorners, if_neg hvalid, h]

/-- Conservation over a completed corner loop: every corner either
prints one peak message or contributes one entry to `failed_corners`,
and the failure list grows only by corners of the input list. -/
theorem processCorners_done_counts (cfg : Config) (samples elapsed : ℕ → ℕ → ℕ)
    (fuel : ℕ) :
    ∀ (corners : List ℤ) (i : ℕ) (tr : List Ev) (fl : List ℤ)
      (tr' : List Ev) (fl' : List ℤ),
    processCorners cfg samples elapsed fuel corners i tr fl = .done tr' fl' →
    countPeaks tr' + fl'.length = countPeaks tr + fl.length + corners.length ∧
    ∀ c : ℤ, fl'.count c ≤ fl.count c + corners.count c := by
  intro corners
  induction corners with
  | nil =>
    intro i tr fl tr' fl' h
    simp only [processCorners, RunOut.done.injEq] at h
    obtain ⟨rfl, rfl⟩ := h
    refine ⟨by simp, fun c => by simp⟩
  | cons c rest ih =>
    intro i tr fl tr' fl' h
    simp only [processCorners] at h
    split at h
    · simp at h
    · rename_i hvalid
      split at h
      · simp at h
      · simp at h
      · rename_i evs hattempt
        obtain ⟨h1, h2⟩ := ih (i + 1) _ _ _ _ h
        have hpk : countPeaks (tr ++ Ev.setState c 0 :: evs) = countPeaks tr + 1 := by
          have : Ev.setState c 0 :: evs = [Ev.setState c 0] ++ evs := rfl
          rw [this, ← List.append_assoc, countPeaks_append, countPeaks_append,
            attemptLoop_homed_countPeaks c cfg (samples i) (elapsed i) fuel [] 0 evs hattempt]
          rfl
        refine ⟨?_, fun a => ?_⟩
        · rw [hpk] at h1
          simp only [List.length_cons]
          omega
        · have := h2 a
          have hcount : (rest.count a : ℕ) ≤ (c :: rest).count a := by
            rw [List.count_cons]
            omega
          omega
      · rename_i evs hattempt
        obtain ⟨h1, h2⟩ := ih (i + 1) _ _ _ _ h
        have hpk : countPeaks (tr ++ Ev.setState c 0 :: evs) = countPeaks tr := by
          have : Ev.setState c 0 :: evs = [Ev.setState c 0] ++ evs := rfl
          rw [this, ← List.append_assoc, countPeaks_append, countPeaks_append,
            attemptLoop_timedOut_countPeaks c cfg (samples i) (elapsed i) fuel [] 0 evs hattempt]
          rfl
        refine ⟨?_, fun a => ?_⟩
        · rw [hpk] at h1
          simp only [List.length_append, List.length_cons, List.length_nil] at h1 ⊢
          omega
        · have := h2 a
          have hfl : (fl ++ [c]).count a = fl.count a + ([c] : List ℤ).count a :=
            List.count_append a fl [c]
          have hcons : (c :: rest).count a = ([c] : List ℤ).count a + rest.count a :=
            List.count_append a [c] rest
          omega

/-- Corner-loop decomposition over list append. -/
theorem processCorners_append (cfg : Config) (samples elapsed : ℕ → ℕ → ℕ) (fuel : ℕ) :
    ∀ (l₁ l₂ : List ℤ) (i : ℕ) (tr : List Ev) (fl : List ℤ),
    processCorners cfg samples elapsed fuel (l₁ ++ l₂) i tr fl =
      match processCorners cfg samples elapsed fuel l₁ i tr fl with
      | .done tr' fl' => processCorners cfg samples elapsed fuel l₂ (i + l₁.length) tr' fl'
      | r => r := by
  intro l₁
  induction l₁ with
  | nil =>
    intro l₂ i tr fl
    simp [processCorners]
  | cons c rest ih =>
    intro l₂ i tr fl
    simp only [List.cons_append, processCorners]
    split
    · rfl
    · split
      · rfl
      · rfl
      · simp only [List.append_eq] at *
        rw [ih]
        have harg : i + 1 + rest.length = i + (c :: rest).length := by
          simp
          omega
        rw [harg]
      · simp only [List.append_eq] at *
        rw [ih]
        have harg : i + 1 + rest.length = i + (c :: rest).length := by
          simp
          omega
        rw [harg]

/-- Claim C4: the aggregate `RuntimeError` is raised exactly once, after
every requested corner has been attempted — on a completed run each
corner accounts for either one peak print or one failure entry — and
iff the failure list is non-empty (otherwise the call returns
normally).  In the concrete `[A, B]` scenario where corner position 0
never yields a valid sample and corner position 1 has a clean
single-peak triangular waveform, B is still fully processed and homed
(24 forward pulses, 4 reverse pulses, one peak print) and the failure
set contains only A. -/
theorem aggregate_failure_raised_once_after_all :
    (∀ (cfg : Config) (samples elapsed : ℕ → ℕ → ℕ) (fuel : ℕ)
        (corners fl : List ℤ) (tr : List Ev),
      zero_corner_motors corners cfg samples elapsed fuel = .runtimeError fl tr →
        fl ≠ [] ∧ countPeaks tr + fl.length = corners.length) ∧
    (∀ (cfg : Config) (samples elapsed : ℕ → ℕ → ℕ) (fuel : ℕ)
        (corners : List ℤ) (tr : List Ev),
      zero_corner_motors corners cfg samples elapsed fuel = .normalReturn tr →
        countPeaks tr = corners.length) ∧
    twoCornerRun.failedOf = [0] ∧
    countPulses 1 1 twoCornerRun.traceOf = 24 ∧
    countPulses 1 (-1) twoCornerRun.traceOf = 4 ∧
    countPeaks twoCornerRun.traceOf = 1 := by
  refine ⟨?_, ?_, by decide, by decide, by decide, by decide⟩
  · intro cfg samples elapsed fuel corners fl tr h
    unfold zero_corner_motors at h
    split at h
    · rename_i tr1 fl1 hp
      split at h
      · simp at h
      · rename_i hne
        injection h with h1 h2
        subst h1
        subst h2
        obtain ⟨hc, -⟩ := processCorners_done_counts cfg samples elapsed fuel
          corners 0 [] [] _ _ hp
        refine ⟨hne, ?_⟩
        simpa [countPeaks] using hc
    · simp at h
    · simp at h
    · simp at h
  · intro cfg samples elapsed fuel corners tr h
    unfold zero_corner_motors at h
    split at h
    · rename_i tr1 fl1 hp
      split at h
      · rename_i hfl
        subst hfl
        injection h with h1
        subst h1
        obtain ⟨hc, -⟩ := processCorners_done_counts cfg samples elapsed fuel
          corners 0 [] [] _ _ hp
        simpa [countPeaks] using hc
      · simp at h
    · simp at h
    · simp at h
    · simp at h

/-- Claim C4, witness: the normal-return conjunct applied to a
single-corner run that homes on its first valid sample. -/
theorem aggregate_failure_witness :
    countPeaks [Ev.setState 0 0, Ev.pulse 0 1 5 10, Ev.read 0 7,
      Ev.insert 0 7, Ev.printPeak 0] = 1 :=
  aggregate_failure_raised_once_after_all.2.1 flatConfig flatSamples linElapsed 10 [0]
    [Ev.setState 0 0, Ev.pulse 0 1 5 10, Ev.read 0 7, Ev.insert 0 7, Ev.printPeak 0] rfl

/-- Claim C5: a sample below `min_valid_value` is never inserted into
the corner's window (every `insert` event carries a value at or above
the threshold), and when every sample of a corner is invalid the
attempt emits no insertion at all and ends in the timeout branch as
soon as the clock passes `timeout_per_motor_ms` — the elapsed budget is
never reset by skipped samples — after which the corner is appended to
the failure list (the only entry when no other corner failed). -/
theorem invalid_samples_filtered (c : ℤ) (cfg : Config)
    (samples elapsed : ℕ → ℕ → ℕ) (fuel : ℕ) (i : ℕ) (tr : List Ev) (fl : List ℤ)
    (hc0 : 0 ≤ c) (hc3 : c ≤ 3) :
    (∀ (w : List ℕ) (k v : ℕ),
      Ev.insert c v ∈ (attemptLoop c cfg (samples i) (elapsed i) w k fuel).evs →
      cfg.min_valid_value ≤ v) ∧
    ((∀ k, samples i k < cfg.min_valid_value) →
      ∀ d, d < fuel → cfg.timeout_per_motor_ms < elapsed i d →
      (attemptLoop c cfg (samples i) (elapsed i) [] 0 fuel).isTimedOut = true ∧
      (∀ v, Ev.insert c v ∉ (attemptLoop c cfg (samples i) (elapsed i) [] 0 fuel).evs) ∧
      processCorners cfg samples elapsed fuel [c] i tr fl =
        .done (tr ++ Ev.setState c 0 ::
            (attemptLoop c cfg (samples i) (elapsed i) [] 0 fuel).evs)
          (fl ++ [c])) := by
  refine ⟨fun w k v h =>
    attemptLoop_insert_ge_min c cfg (samples i) (elapsed i) fuel w k v h, ?_⟩
  intro hall d hd ht
  obtain ⟨h1, h2⟩ := attemptLoop_all_invalid c cfg (samples i) (elapsed i) hall fuel
    [] 0 d hd (by rw [Nat.zero_add]; exact ht)
  refine ⟨h1, h2, ?_⟩
  rw [processCorners_timedOut_step c cfg samples elapsed fuel [] i tr fl _
    hc0 hc3 (isTimedOut_eq h1)]
  rfl

/-- Claim C5, witness: corner 0 with only invalid samples and a clock
already past the budget — the attempt times out without ever inserting,
and the failure list is exactly `[0]`. -/
theorem invalid_samples_filtered_witness :
    (attemptLoop 0 {} (invalidSamples 0) (fastElapsed 0) [] 0 5).isTimedOut = true ∧
    Ev.insert 0 0 ∉ (attemptLoop 0 {} (invalidSamples 0) (fastElapsed 0) [] 0 5).evs ∧
    processCorners {} invalidSamples fastElapsed 5 [0] 0 [] [] =
      .done ([] ++ Ev.setState 0 0 ::
          (attemptLoop 0 {} (invalidSamples 0) (fastElapsed 0) [] 0 5).evs)
        ([] ++ [0]) := by
  obtain ⟨h1, h2, h3⟩ := (invalid_samples_filtered 0 {} invalidSamples fastElapsed 5 0 [] []
    (by decide) (by decide)).2 (fun _ => (by decide : (0 : ℕ) < 1000)) 0 (by decide)
    (by decide : (2000 : ℕ) < 2001)
  exact ⟨h1, h2 0, h3⟩

/-- Claim C7, counterexample: `zero_corner_motors` accepts the input
list `[0, 0]`; with every attempt timing out, corner ID 0 appears twice
in the reported failure set. -/
theorem failure_set_duplicate_cex :
    dupRun.failedOf = [0, 0] ∧ 1 < dupRun.failedOf.count 0 := by
  refine ⟨by decide, by decide⟩

/-- Claim C7 (amended): for every input list of pairwise-distinct
corner IDs, each ID appears at most once in the aggregate failure set,
and a normal return (empty failure set) means every requested corner
printed its peak message, i.e. was homed. -/
theorem failure_set_unique_and_complete (corners : List ℤ) (cfg : Config)
    (samples elapsed : ℕ → ℕ → ℕ) (fuel : ℕ) (hnd : corners.Nodup) :
    (∀ (fl : List ℤ) (tr : List Ev),
      zero_corner_motors corners cfg samples elapsed fuel = .runtimeError fl tr →
      ∀ c : ℤ, fl.count c ≤ 1) ∧
    (∀ tr : List Ev,
      zero_corner_motors corners cfg samples elapsed fuel = .normalReturn tr →
      countPeaks tr = corners.length) := by
  constructor
  · intro fl tr h c
    unfold zero_corner_motors at h
    split at h
    · rename_i tr1 fl1 hp
      split at h
      · simp at h
      · injection h with h1 h2
        subst h1
        subst h2
        obtain ⟨-, hcnt⟩ := processCorners_done_counts cfg samples elapsed fuel
          corners 0 [] [] _ _ hp
        rename_i hne
        have hcc := hcnt c
        have hone : corners.count c ≤ 1 := List.nodup_iff_count_le_one.mp hnd c
        simp only [List.count_nil] at hcc
        omega
    · simp at h
    · simp at h
    · simp at h
  · intro tr h
    unfold zero_corner_motors at h
    split at h
    · rename_i tr1 fl1 hp
      split at h
      · rename_i hfl
        subst hfl
        injection h with h1
        subst h1
        obtain ⟨hc, -⟩ := processCorners_done_counts cfg samples elapsed fuel
          corners 0 [] [] _ _ hp
        simpa [countPeaks] using hc
      · simp at h
    · simp at h
    · simp at h
    · simp at h

/-- Claim C7, witness: the amended theorem applied to the distinct
corner list `[0]` whose single attempt times out. -/
theorem failure_set_unique_witness : ([(0 : ℤ)] : List ℤ).count 0 ≤ 1 :=
  (failure_set_unique_and_complete [0] {} invalidSamples fastElapsed 5 (by decide)).1
    [0] [Ev.setState 0 0, Ev.setState 0 0, Ev.printFail 0] rfl 0

/-- Claim C10: if the corner list reaches a corner number outside
{0,1,2,3}, the defensive stop raises `ValueError` there: the loop's
trace and failure list are exactly what the earlier (valid) corners
produced — no pulse or sensor read is ever issued for the bad corner —
and the remaining corners are never processed; the whole call surfaces
the `ValueError` instead of the continue-on-failure aggregate. -/
theorem out_of_range_corner_aborts (bad : ℤ) (hbad : bad < 0 ∨ 3 < bad)
    (pre rest : List ℤ) (cfg : Config) (samples elapsed : ℕ → ℕ → ℕ) (fuel : ℕ)
    (i : ℕ) (tr tr' : List Ev) (fl fl' : List ℤ) :
    processCorners cfg samples elapsed fuel (bad :: rest) i tr fl =
      .raisedValueError tr fl ∧
    (processCorners cfg samples elapsed fuel pre 0 [] [] = .done tr' fl' →
      zero_corner_motors (pre ++ bad :: rest) cfg samples elapsed fuel =
        .valueError tr') := by
  have hstep : ∀ (j : ℕ) (t : List Ev) (f : List ℤ),
      processCorners cfg samples elapsed fuel (bad :: rest) j t f =
        .raisedValueError t f := by
    intro j t f
    simp only [processCorners, if_pos hbad]
  refine ⟨hstep i tr fl, fun hpre => ?_⟩
  unfold zero_corner_motors
  rw [processCorners_append cfg samples elapsed fuel pre (bad :: rest) 0 [] [], hpre]
  simp only [hstep]

/-- Claim C10, witness: corners `[0, 5, 1]` — corner 0 homes, then
corner 5 raises `ValueError` before any of its pulses or reads, and
corner 1 is never processed. -/
theorem out_of_range_corner_aborts_witness :
    processCorners flatConfig flatSamples linElapsed 10 [5, 1] 0 [] [] =
      .raisedValueError [] [] ∧
    zero_corner_motors [0, 5, 1] flatConfig flatSamples linElapsed 10 =
      .valueError [Ev.setState 0 0, Ev.pulse 0 1 5 10, Ev.read 0 7,
        Ev.insert 0 7, Ev.printPeak 0] := by
  obtain ⟨h1, h2⟩ := out_of_range_corner_aborts 5 (by decide) [0] [1] flatConfig
    flatSamples linElapsed 10 0 []
    [Ev.setState 0 0, Ev.pulse 0 1 5 10, Ev.read 0 7, Ev.insert 0 7, Ev.printPeak 0]
    [] []
  exact ⟨h1, h2 rfl⟩

end BrailleHoming
